import Mathlib

/-!
Verification of the Dashbord progress pipeline.

The development shallowly embeds the data-normalization and analytics code of
the repository: the Notion record mapper (`progressFromStatus`,
`deriveOverallStatus`, `mapPage`), the date normalizer (`parseUTC`), the
UTC day/week bucketing keys, the dashboard analytics (KPIs, streak, weekly
velocity with moving average, cumulative burn-up, topic averages `avgPct`),
and the API route handler.  JavaScript numbers are modelled as rationals,
epoch timestamps as integers (milliseconds), `Date` objects as `Option Int`
(`none` = Invalid Date), nullable values as `Option`, and the host runtime
(native date parser, current clock) as an explicit environment `JSEnv`.
-/

namespace Dashbord

/-- Milliseconds in one UTC day. -/
def dayMs : Int := 86400000

/-- JavaScript Math.round on a rational: round half toward positive infinity. -/
def jsRound (q : ℚ) : Int := ⌊q + 1/2⌋

/-- Leap-year test of the proleptic Gregorian calendar. -/
def isLeap (y : Int) : Bool :=
  (y % 4 == 0 && y % 100 != 0) || (y % 400 == 0)

/-- Number of days in a month of the Gregorian calendar. -/
def daysInMonth (y m : Int) : Int :=
  if m = 2 then (if isLeap y then 29 else 28)
  else if m = 4 ∨ m = 6 ∨ m = 9 ∨ m = 11 then 30
  else 31

/-- Civil date to days since the Unix epoch (standard Gregorian calendar
algorithm); models the ECMAScript mapping from a UTC calendar date to its
epoch day number. -/
def daysFromCivil (y m d : Int) : Int :=
  let yy := if m ≤ 2 then y - 1 else y
  let era : Int := Int.fdiv yy 400
  let yoe : Int := yy - era * 400
  let mp : Int := if 2 < m then m - 3 else m + 9
  let doy : Int := (153 * mp + 2) / 5 + d - 1
  let doe : Int := yoe * 365 + yoe / 4 - yoe / 100 + doy
  era * 146097 + doe - 719468

/-- Days since the Unix epoch to a civil date (year, month, day); inverse of
`daysFromCivil`, used to model getUTCFullYear / getUTCMonth / getUTCDate. -/
def civilFromDays (z0 : Int) : Int × Int × Int :=
  let z := z0 + 719468
  let era : Int := Int.fdiv z 146097
  let doe : Int := z - era * 146097
  let yoe : Int := (doe - doe / 1460 + doe / 36524 - doe / 146096) / 365
  let y : Int := yoe + era * 400
  let doy : Int := doe - (365 * yoe + yoe / 4 - yoe / 100)
  let mp : Int := (5 * doy + 2) / 153
  let d : Int := doy - (153 * mp + 2) / 5 + 1
  let m : Int := if mp < 10 then mp + 3 else mp - 9
  (if m ≤ 2 then y + 1 else y, m, d)

/-- getUTCFullYear of an epoch-milliseconds timestamp. -/
def yearOfMs (t : Int) : Int := (civilFromDays (Int.fdiv t dayMs)).1

/-- Model of the JavaScript host environment seen by the date code:
`nativeParse` models the host date parser `new Date(string)` on strings that
do not match the ISO day pattern (`some t` = a valid Date with epoch ms `t`,
`none` = Invalid Date); `nowMs` models `Date.now()`.  The caller's local
timezone influences only `nativeParse`, so a result that holds for every
environment is in particular independent of the caller's timezone. -/
structure JSEnv where
  nativeParse : String → Option Int
  nowMs : Int

/-- Numeric value of a decimal digit character. -/
def digitVal (c : Char) : Int := Int.ofNat c.toNat - 48

/-- Components of a string matching the anchored regex of parseUTC for ISO
days (four digits, dash, two digits, dash, two digits, nothing else). -/
def isoDateComponents (s : String) : Option (Int × Int × Int) :=
  match s.data with
  | [y1, y2, y3, y4, c1, m1, m2, c2, d1, d2] =>
    if y1.isDigit && y2.isDigit && y3.isDigit && y4.isDigit && c1 == '-' &&
       m1.isDigit && m2.isDigit && c2 == '-' && d1.isDigit && d2.isDigit then
      some (1000 * digitVal y1 + 100 * digitVal y2 + 10 * digitVal y3 + digitVal y4,
            10 * digitVal m1 + digitVal m2, 10 * digitVal d1 + digitVal d2)
    else none
  | _ => none

/-- JavaScript String.prototype.toLowerCase: character-wise lowercasing
(the inputs here are ASCII, where the host and this model agree). -/
def jsToLower (s : String) : String := String.mk (s.data.map Char.toLower)

/-- JavaScript String.prototype.trim: strip leading and trailing
whitespace. -/
def jsTrim (s : String) : String :=
  String.mk (((s.data.dropWhile Char.isWhitespace).reverse.dropWhile
    Char.isWhitespace).reverse)

/-- Month number of a three-letter month abbreviation (case-insensitive). -/
def monthIndex (mon : String) : Option Int :=
  match jsToLower mon with
  | "jan" => some 1 | "feb" => some 2 | "mar" => some 3 | "apr" => some 4
  | "may" => some 5 | "jun" => some 6 | "jul" => some 7 | "aug" => some 8
  | "sep" => some 9 | "oct" => some 10 | "nov" => some 11 | "dec" => some 12
  | _ => none

/-- Match a final day group: one or two digit characters ending the string. -/
def matchDay : List Char → Option Int
  | [d1] => if d1.isDigit then some (digitVal d1) else none
  | [d1, d2] => if d1.isDigit && d2.isDigit then some (10 * digitVal d1 + digitVal d2) else none
  | _ => none

/-- Match three letters, at least one whitespace, then the day group. -/
def matchMonthDayCore : List Char → Option (String × Int)
  | m1 :: m2 :: m3 :: c :: rest =>
    if m1.isAlpha && m2.isAlpha && m3.isAlpha && c.isWhitespace then
      match matchDay (rest.dropWhile Char.isWhitespace) with
      | some d => some (String.mk [m1, m2, m3], d)
      | none => none
    else none
  | _ => none

/-- Model of the year-less date regex of parseUTC: an optional three-letter
weekday followed by a comma and whitespace, then a three-letter month,
whitespace, and a one- or two-digit day ending the string.  When the
weekday-prefix alternative is taken but the remainder fails, the prefix-less
alternative also fails (the fourth character is a comma, not whitespace), so
the deterministic commit below agrees with backtracking regex search. -/
def matchMonthDay (s : String) : Option (String × Int) :=
  match s.data with
  | w1 :: w2 :: w3 :: c :: rest =>
    if w1.isAlpha && w2.isAlpha && w3.isAlpha && c == ',' then
      matchMonthDayCore (rest.dropWhile Char.isWhitespace)
    else matchMonthDayCore s.data
  | cs => matchMonthDayCore cs

/-- Model of Date.parse on the constructed string "Mon D, YYYY UTC": a valid
month abbreviation with an in-range day gives that UTC midnight, anything
else NaN (an Invalid Date, modelled `none`).  The in-range check reflects
the host legacy parser rejecting out-of-range days; no claim depends on this
branch's fine behavior. -/
def jsParseMonthDayUTC (y : Int) (mon : String) (d : Int) : Option Int :=
  match monthIndex mon with
  | some m => if 1 ≤ d ∧ d ≤ daysInMonth y m then some (dayMs * daysFromCivil y m d) else none
  | none => none

/-- Date.UTC(now.getUTCFullYear(), now.getUTCMonth(), now.getUTCDate()):
midnight of the current UTC day. -/
def currentUTCMidnight (env : JSEnv) : Int :=
  let c := civilFromDays (Int.fdiv env.nowMs dayMs)
  dayMs * daysFromCivil c.1 c.2.1 c.2.2

/-- Last two branches of parseUTC: the year-less month-day pattern with the
current UTC year assumed, then the current-UTC-midnight last resort. -/
def parseUTCFallback (env : JSEnv) (s : String) : Option (Option Int) :=
  match matchMonthDay s with
  | some (mon, d) => some (jsParseMonthDayUTC (yearOfMs env.nowMs) mon d)
  | none => some (some (currentUTCMidnight env))

/-- Shallow embedding of parseUTC from the dashboard component.  The result
models the TypeScript `Date | null`: `none` is null (returned exactly for
falsy input, i.e. the empty string), `some none` an Invalid Date, and
`some (some t)` a valid Date with epoch milliseconds `t`.  Branch order as
in the source: falsy check, anchored ISO day pattern parsed as UTC midnight
(the ECMAScript ISO parser accepts only in-range month and day), the native
parse guarded by year greater than 2015, the year-less month-day pattern,
and the current-UTC-midnight last resort. -/
def parseUTC (env : JSEnv) (s : String) : Option (Option Int) :=
  if s = "" then none
  else
    match isoDateComponents s with
    | some (y, m, d) =>
      if 1 ≤ m ∧ m ≤ 12 ∧ 1 ≤ d ∧ d ≤ daysInMonth y m then
        some (some (dayMs * daysFromCivil y m d))
      else some none
    | none =>
      match env.nativeParse s with
      | some t =>
        if 2015 < yearOfMs t then some (some t)
        else parseUTCFallback env s
      | none => parseUTCFallback env s

/-! Dashboard items and analytics. -/

/-- A JavaScript value of TypeScript type number | null | undefined, as
carried by the percentage fields of a dashboard item. -/
inductive JSNumField
  | undef
  | null
  | num (q : ℚ)
deriving DecidableEq

/-- Number(x): undefined coerces to NaN (modelled `none`), null to 0, a
number to itself. -/
def jsNumber : JSNumField → Option ℚ
  | .undef => none
  | .null => some 0
  | .num q => some q

/-- The nullish-coalescing default (x ?? 0) used by the done predicate. -/
def nnQ : JSNumField → ℚ
  | .undef => 0
  | .null => 0
  | .num q => q

/-- The loosely-typed Item consumed by the dashboard component (fields
optional and nullable as in its TypeScript declaration). -/
structure Item where
  date : Option String
  status : Option String
  hours : JSNumField
  pythonTopic : Option (Option String)
  llmTopic : Option (Option String)
  pythonPct : JSNumField
  llmPct : JSNumField
  overallPct : JSNumField
deriving DecidableEq

/-- isDoneDay: a row counts as done when the overall or either topic
percentage (nullish-defaulted to 0) is at least 100. -/
def isDoneDay (r : Item) : Bool :=
  decide (100 ≤ nnQ r.overallPct) || decide (100 ≤ nnQ r.pythonPct) ||
    decide (100 ≤ nnQ r.llmPct)

/-- JavaScript truthiness of the date field as used in filter(r => r.date):
present and a non-empty string. -/
def hasDate (r : Item) : Bool := r.date.getD "" != ""

/-- d3.utcDay.floor(d).getTime(): floor an epoch-ms instant to UTC
midnight. -/
def utcDayKeyMs (t : Int) : Int := dayMs * Int.fdiv t dayMs

/-- d3.utcMonday.floor(d).getTime(): floor to the most recent UTC Monday
midnight (epoch day 4, 1970-01-05, was a Monday). -/
def utcWeekKeyMs (t : Int) : Int :=
  let d := Int.fdiv t dayMs
  dayMs * (d - Int.emod (d - 4) 7)

/-- UTC day key of a row, via parseUTC on its date string; `none` models the
NaN key of an Invalid Date (JavaScript map keys coalesce NaN values). -/
def itemDayKey (env : JSEnv) (r : Item) : Option Int :=
  match parseUTC env (r.date.getD "") with
  | some (some t) => some (utcDayKeyMs t)
  | _ => none

/-- UTC ISO-week key of a row, with the same NaN convention. -/
def itemWeekKey (env : JSEnv) (r : Item) : Option Int :=
  match parseUTC env (r.date.getD "") with
  | some (some t) => some (utcWeekKeyMs t)
  | _ => none

/-- Keys in first-encounter order with duplicates removed, as produced by
the key set of a d3 rollup. -/
def dedupKeysAux {κ : Type} [DecidableEq κ] (seen : List κ) : List κ → List κ
  | [] => []
  | k :: rest =>
    if k ∈ seen then dedupKeysAux seen rest
    else k :: dedupKeysAux (k :: seen) rest

/-- Distinct keys of a list, first occurrence first. -/
def dedupKeys {κ : Type} [DecidableEq κ] (l : List κ) : List κ := dedupKeysAux [] l

/-- d3.rollups(l, red, key): one entry per distinct key in first-encounter
order, carrying the reduction of the group (group members keep their
relative order). -/
def rollupsBy {α κ β : Type} [DecidableEq κ] (l : List α) (key : α → κ)
    (red : List α → β) : List (κ × β) :=
  (dedupKeys (l.map key)).map (fun k => (k, red (l.filter (fun a => key a = k))))

/-- Numeric ascending order on rollup keys; the NaN key (`none`) is placed
last (the comparator's order on NaN is unspecified in the host; no claim
depends on it). -/
def keyLE : Option Int → Option Int → Bool
  | none, none => true
  | none, some _ => false
  | some _, none => true
  | some a, some b => decide (a ≤ b)

/-- Insert into a list sorted ascending by `le`. -/
def insertByLE {κ : Type} (le : κ → κ → Bool) (x : κ) : List κ → List κ
  | [] => [x]
  | y :: rest => if le x y then x :: y :: rest else y :: insertByLE le x rest

/-- Insertion sort by `le`; on the duplicate-free numeric keys sorted here
it produces exactly the ascending order of the host's Array sort. -/
def sortByLE {κ : Type} (le : κ → κ → Bool) : List κ → List κ
  | [] => []
  | x :: rest => insertByLE le x (sortByLE le rest)

/-- Sort a keyed series ascending by key. -/
def sortSeries {β : Type} (l : List (Option Int × β)) : List (Option Int × β) :=
  sortByLE (fun a b => keyLE a.1 b.1) l

/-- The sorted distinct UTC day keys of the done rows that carry a date
(the streak computation's doneDayKeys array). -/
def doneDayKeys (env : JSEnv) (items : List Item) : List (Option Int) :=
  sortByLE keyLE
    (dedupKeys (((items.filter isDoneDay).filter hasDate).map (itemDayKey env)))

/-- The streak while-loop: step back one UTC day while the cursor's key is
in the set.  The loop consumes a distinct set member per iteration, so fuel
equal to the set size reproduces the host loop exactly whenever every key is
a number; with a NaN key as maximum the host loop would not terminate. -/
def countBack (ks : List (Option Int)) : Option Int → Nat → Nat
  | _, 0 => 0
  | cursor, fuel + 1 =>
    if cursor ∈ ks then 1 + countBack ks (cursor.map (fun t => t - dayMs)) fuel
    else 0

/-- The streak KPI: count back from the latest done day key. -/
def streakOf (env : JSEnv) (items : List Item) : Nat :=
  let ks := doneDayKeys env items
  match ks.getLast? with
  | none => 0
  | some last => countBack ks last ks.length

/-- KPI total: the length of the filtered sequence (dated or not). -/
def kpisTotal (items : List Item) : Nat := items.length

/-- KPI done: rows satisfying the done predicate (dated or not). -/
def kpisDone (items : List Item) : Nat := (items.filter isDoneDay).length

/-- KPI open: total minus done. -/
def kpisOpen (items : List Item) : Nat := kpisTotal items - kpisDone items

/-- KPI completion: Math.round(100 * done / total), 0 when total is 0. -/
def kpisCompletion (items : List Item) : Int :=
  if items.length = 0 then 0
  else jsRound (100 * (kpisDone items : ℚ) / (kpisTotal items : ℚ))

/-- The weekly velocity series: done rows with dates grouped by UTC ISO-week
key, counted, and sorted ascending by week. -/
def weeklySeries (env : JSEnv) (items : List Item) : List (Option Int × Nat) :=
  sortSeries
    (rollupsBy (items.filter (fun r => hasDate r && isDoneDay r)) (itemWeekKey env)
      List.length)

/-- d3.mean with the ?? 0 default applied by the caller on an empty list. -/
def d3mean (l : List ℚ) : ℚ := if l.length = 0 then 0 else l.sum / l.length

/-- The trailing 3-point moving average over the weekly series: at index i,
the mean of the slice from max(0, i-2) to i (Nat subtraction realizes the
max with 0). -/
def movingAvg3 (w : List (Option Int × Nat)) : List (Option Int × ℚ) :=
  w.enum.map (fun p =>
    let i := p.1
    let start := i - 2
    (p.2.1, d3mean (((w.drop start).take (i + 1 - start)).map (fun x => (x.2 : ℚ)))))

/-- The daily burn-up buckets: dated rows grouped by UTC day key into
(added, done) pairs, sorted ascending by day. -/
def dailySeries (env : JSEnv) (items : List Item) : List (Option Int × Nat × Nat) :=
  sortSeries
    (rollupsBy (items.filter hasDate) (itemDayKey env)
      (fun v => (v.length, (v.filter isDoneDay).length)))

/-- Running sums over the daily buckets, from given starting totals. -/
def cumFrom (t0 d0 : Nat) : List (Option Int × Nat × Nat) → List (Option Int × Nat × Nat)
  | [] => []
  | (k, a, dn) :: rest => (k, t0 + a, d0 + dn) :: cumFrom (t0 + a) (d0 + dn) rest

/-- The cumulative burn-up series {day, cumulativeTotal, cumulativeDone}. -/
def cumulativeSeries (env : JSEnv) (items : List Item) : List (Option Int × Nat × Nat) :=
  cumFrom 0 0 (dailySeries env items)

/-- avgPct: coerce each entry with Number, keep the finite results
(undefined becomes NaN and is dropped; null becomes 0 and is kept), and
return their mean, or 0 when nothing remains. -/
def avgPct (arr : List JSNumField) : ℚ :=
  let vals := arr.filterMap jsNumber
  if vals.length = 0 then 0 else vals.sum / vals.length

/-- The three topic-average bars shown when both topics are in view. -/
def topicAverages (items : List Item) : ℚ × ℚ × ℚ :=
  (avgPct (items.map (·.pythonPct)), avgPct (items.map (·.llmPct)),
    avgPct (items.map (·.overallPct)))

/-! The Notion record mapper. -/

/-- The typed result of a formula property (string, number, boolean or date
variant, or an unrecognized kind). -/
inductive FormulaVal
  | fstring (s : Option String)
  | fnumber (n : Option ℚ)
  | fboolean (b : Option Bool)
  | fdate (start : Option String)
  | fother

/-- A polymorphic Notion property value, tagged by kind.  Text runs carry
their optional plain_text; select, status and date carry their optional
payload; `other` covers unrecognized kinds. -/
inductive RawProp
  | formula (f : Option FormulaVal)
  | title (runs : List (Option String))
  | richText (runs : List (Option String))
  | select (name : Option String)
  | status (name : Option String)
  | number (n : Option ℚ)
  | date (start : Option String)
  | multiSelect (names : List String)
  | other

/-- Stringification of a JavaScript number; agrees with the host on the
integral values that occur here (no claim inspects the rendering of a
fractional number). -/
def jsNumToString (q : ℚ) : String :=
  if q.den = 1 then toString q.num else toString q

/-- asPlainText: total plain-text extraction over every property kind.
Title and rich-text concatenate their runs (empty result is falsy and
becomes null); select, status and date yield their payload; numbers
stringify; multi-select joins with ", " (returned even when empty); formula
recurses into its typed result; anything else yields null. -/
def asPlainText : Option RawProp → Option String
  | none => none
  | some (.formula none) => none
  | some (.formula (some (.fstring s))) => s
  | some (.formula (some (.fnumber n))) => n.map jsNumToString
  | some (.formula (some (.fboolean b))) => b.map (fun x => if x then "true" else "false")
  | some (.formula (some (.fdate d))) => d
  | some (.formula (some .fother)) => none
  | some (.title runs) =>
    let parts := String.join (runs.map (fun t => t.getD ""))
    if parts = "" then none else some parts
  | some (.richText runs) =>
    let parts := String.join (runs.map (fun t => t.getD ""))
    if parts = "" then none else some parts
  | some (.select name) => name
  | some (.status name) => name
  | some (.number n) => n.map jsNumToString
  | some (.date start) => start
  | some (.multiSelect names) => some (String.intercalate ", " names)
  | some .other => none

/-- Left-pad a nonnegative integer's decimal rendering to two digits. -/
def pad2 (n : Int) : String := if n < 10 then "0" ++ toString n else toString n

/-- Left-pad to three digits. -/
def pad3 (n : Int) : String :=
  if n < 10 then "00" ++ toString n else if n < 100 then "0" ++ toString n else toString n

/-- Left-pad to four digits. -/
def pad4 (n : Int) : String :=
  if n < 10 then "000" ++ toString n
  else if n < 100 then "00" ++ toString n
  else if n < 1000 then "0" ++ toString n
  else toString n

/-- Date.prototype.toISOString on an epoch-ms timestamp (four-digit years;
the extended format for years outside 0000-9999 does not occur here). -/
def msToISOString (t : Int) : String :=
  let days := Int.fdiv t dayMs
  let ms := Int.emod t dayMs
  let c := civilFromDays days
  pad4 c.1 ++ "-" ++ pad2 c.2.1 ++ "-" ++ pad2 c.2.2 ++ "T" ++
    pad2 (ms / 3600000) ++ ":" ++ pad2 ((ms % 3600000) / 60000) ++ ":" ++
    pad2 ((ms % 60000) / 1000) ++ "." ++ pad3 (ms % 1000) ++ "Z"

/-- toISODate from the mapper: falsy input (absent or empty) yields
undefined, an unparseable date yields undefined, otherwise the ISO
rendering of the native parse. -/
def toISODate (env : JSEnv) (s : Option String) : Option String :=
  match s with
  | none => none
  | some str =>
    if str = "" then none
    else
      match env.nativeParse str with
      | some t => some (msToISOString t)
      | none => none

/-- progressFromStatus: 100 exactly when the trimmed, lowercased status is
"completed", else 0. -/
def progressFromStatus (status : Option String) : ℚ :=
  if jsToLower (jsTrim (status.getD "")) = "completed" then 100 else 0

/-- The derived overall dashboard status enum. -/
inductive OverallStatus
  | done
  | inProgress
  | skipped
  | notStarted
deriving DecidableEq

/-- deriveOverallStatus from the mapper: lowercase both raw statuses (no
trim here), then check Done, then InProgress, then Skipped, then default
NotStarted. -/
def deriveOverallStatus (py llm : Option String) : OverallStatus :=
  let sPy := jsToLower (py.getD "")
  let sLlm := jsToLower (llm.getD "")
  let isPyDone := sPy == "completed"
  let isLlmDone := sLlm == "completed"
  let anyInProg := sPy == "in progress" || sLlm == "in progress"
  let anySkipped := (sPy == "skipped" || sLlm == "skipped") && !isPyDone && !isLlmDone
  if isPyDone && isLlmDone then .done
  else if anyInProg then .inProgress
  else if anySkipped then .skipped
  else .notStarted

/-- Restatement of the specification's tie-break order in its own words,
kept separate to be compared with the code's `deriveOverallStatus`. -/
def deriveOverallStatusSpec (py llm : Option String) : OverallStatus :=
  let sPy := jsToLower (py.getD "")
  let sLlm := jsToLower (llm.getD "")
  if sPy = "completed" ∧ sLlm = "completed" then .done
  else if sPy = "in progress" ∨ sLlm = "in progress" then .inProgress
  else if (sPy = "skipped" ∨ sLlm = "skipped") ∧ sPy ≠ "completed" ∧ sLlm ≠ "completed"
    then .skipped
  else .notStarted

/-- The canonical record produced by the mapper. -/
structure ProgressRecord where
  date : Option String
  status : OverallStatus
  hours : ℚ
  pythonTopic : Option String
  llmTopic : Option String
  pythonPct : ℚ
  llmPct : ℚ
  overallPct : ℚ

/-- The ordered date field-name candidates (Day first, then Date). -/
def FIELD_dateCandidates : List String := ["Day", "Date"]

/-- First populated property among the candidate field names. -/
def getFirstExistingProp (props : String → Option RawProp) : List String → Option RawProp
  | [] => none
  | c :: rest =>
    match props c with
    | some p => some p
    | none => getFirstExistingProp props rest

/-- mapPage: map one raw page (its properties, modelled as a map from field
name to optional property value) to a canonical ProgressRecord. -/
def mapPage (env : JSEnv) (props : String → Option RawProp) : ProgressRecord :=
  let dayProp := getFirstExistingProp props FIELD_dateCandidates
  let dateISO := toISODate env (asPlainText dayProp)
  let pythonStatus := asPlainText (props "Python Status")
  let llmStatus := asPlainText (props "LLM Status")
  let pythonTopic := asPlainText (props "Python Topic")
  let llmTopic := asPlainText (props "LLM Topic")
  let pythonPct := progressFromStatus pythonStatus
  let llmPct := progressFromStatus llmStatus
  let overallPct : ℚ := if pythonPct == 100 && llmPct == 100 then 100 else 0
  { date := dateISO
    status := deriveOverallStatus pythonStatus llmStatus
    hours := 0
    pythonTopic := pythonTopic
    llmTopic := llmTopic
    pythonPct := pythonPct
    llmPct := llmPct
    overallPct := overallPct }

/-! The API route handler. -/

/-- The error body of a failure response. -/
structure ErrorBody where
  code : String
  message : String
deriving DecidableEq

/-- The JSON response of the progress route: success with data and HTTP
status, or failure with an error body and HTTP status. -/
inductive RouteResult
  | success (data : List ProgressRecord) (status : Nat)
  | failure (error : ErrorBody) (status : Nat)

/-- QuerySchema.safeParse on the value searchParams.get("db") ?? undefined.
The input is always a string or undefined, and z.string().optional()
accepts every string (there is no non-empty refinement) as well as
undefined, so the parse always succeeds; a `none` result would model a
validation failure. -/
def querySchemaSafeParse (db : Option String) : Option (Option String) := some db

/-- The GET handler of the progress route: validate the optional db
override, then ingest.  `fetch` models the awaited getProgressData call
(network against the external source): ok is the resolved data, error a
thrown failure. -/
def routeGET (db : Option String)
    (fetch : Option String → Except String (List ProgressRecord)) : RouteResult :=
  match querySchemaSafeParse db with
  | none => RouteResult.failure ⟨"BAD_QUERY", "Invalid query params"⟩ 400
  | some dbOverride =>
    match fetch dbOverride with
    | Except.ok data => RouteResult.success data 200
    | Except.error _ => RouteResult.failure ⟨"SERVER_ERROR", "Failed to fetch Notion data"⟩ 500

/-! Concrete sample data used by the witnesses. -/

/-- A concrete host environment: a native parser that fails on every string
and a clock at the epoch. -/
def sampleEnv : JSEnv := ⟨fun _ => none, 0⟩

/-- A row with a given date whose python topic alone is at a given
percentage. -/
def sampleItem (d : Option String) (py : ℚ) : Item :=
  { date := d, status := none, hours := JSNumField.undef, pythonTopic := none,
    llmTopic := none, pythonPct := JSNumField.num py, llmPct := JSNumField.num 0,
    overallPct := JSNumField.num 0 }

/-- A fully completed row on a given date. -/
def doneItem (d : Option String) : Item :=
  { date := d, status := some "Done", hours := JSNumField.num 0, pythonTopic := none,
    llmTopic := none, pythonPct := JSNumField.num 100, llmPct := JSNumField.num 100,
    overallPct := JSNumField.num 100 }

/-- An unfinished row on a given date with a given raw status label. -/
def openItem (d : Option String) (st : String) : Item :=
  { date := d, status := some st, hours := JSNumField.num 0, pythonTopic := none,
    llmTopic := none, pythonPct := JSNumField.num 0, llmPct := JSNumField.num 0,
    overallPct := JSNumField.num 0 }

/-- Rows whose done day keys are D, D-1 and D-3 for D = 2024-03-05, with a
duplicate done row on D, a non-done row on D-4 and a dateless done row. -/
def streakItems : List Item :=
  [sampleItem (some "2024-03-05") 100, sampleItem (some "2024-03-04") 100,
   sampleItem (some "2024-03-02") 100, sampleItem (some "2024-03-05") 100,
   sampleItem (some "2024-03-01") 0, sampleItem none 100]

/-- Done rows spread over the ISO weeks starting 2024-03-04, 2024-03-11 and
2024-03-18, with weekly counts 1, 2, 1. -/
def velocityItems : List Item :=
  [sampleItem (some "2024-03-04") 100, sampleItem (some "2024-03-11") 100,
   sampleItem (some "2024-03-12") 100, sampleItem (some "2024-03-18") 100]

/-- The spec's end-to-end example: one missing-date row, two fully
completed rows, three in-progress rows, four not-started rows. -/
def kpiItems : List Item :=
  openItem none "Not started" ::
    [doneItem (some "2024-03-05"), doneItem (some "2024-03-06"),
     openItem (some "2024-03-07") "In progress", openItem (some "2024-03-08") "In progress",
     openItem (some "2024-03-09") "In progress", openItem (some "2024-03-10") "Not started",
     openItem (some "2024-03-11") "Not started", openItem (some "2024-03-12") "Not started",
     openItem (some "2024-03-13") "Not started"]

/-! Claims about the record mapper. -/

/-- C1: for every raw record, the mapper's overallPct is 100 exactly when
both pythonPct and llmPct are 100, and takes no value other than 100 or 0
(hence is 0 otherwise). -/
theorem C1_overallPct_iff (env : JSEnv) (props : String → Option RawProp) :
    ((mapPage env props).overallPct = 100 ↔
      (mapPage env props).pythonPct = 100 ∧ (mapPage env props).llmPct = 100) ∧
    ((mapPage env props).overallPct = 100 ∨ (mapPage env props).overallPct = 0) := by
  by_cases h1 : progressFromStatus (asPlainText (props "Python Status")) = 100 <;>
  by_cases h2 : progressFromStatus (asPlainText (props "LLM Status")) = 100 <;>
  simp [mapPage, h1, h2]

/-- C2: deriveOverallStatus is total over all optional raw status pairs and
realizes the specification's tie-break order exactly (Done only when both
lowercased statuses are "completed", else InProgress when either is
"in progress", else Skipped when either is "skipped" and neither is
"completed", else NotStarted); in particular completed with in-progress
gives InProgress and completed with completed gives Done. -/
theorem C2_deriveOverallStatus_tiebreak :
    (∀ py llm : Option String, deriveOverallStatus py llm = deriveOverallStatusSpec py llm) ∧
    deriveOverallStatus (some "completed") (some "in progress") = OverallStatus.inProgress ∧
    deriveOverallStatus (some "completed") (some "completed") = OverallStatus.done := by
  refine ⟨fun py llm => ?_, by decide, by decide⟩
  by_cases h1 : jsToLower (py.getD "") = "completed" <;>
  by_cases h2 : jsToLower (llm.getD "") = "completed" <;>
  by_cases h3 : jsToLower (py.getD "") = "in progress" <;>
  by_cases h4 : jsToLower (llm.getD "") = "in progress" <;>
  by_cases h5 : jsToLower (py.getD "") = "skipped" <;>
  by_cases h6 : jsToLower (llm.getD "") = "skipped" <;>
  simp_all [deriveOverallStatus, deriveOverallStatusSpec]

/-! Claims about the date normalizer. -/

/-- C3 counterexample: on the empty string the normalizer returns null
(the empty string is falsy, so the first branch returns before any
fallback), not the current UTC midnight the claim requires. -/
theorem C3_counterexample :
    parseUTC sampleEnv "" = none ∧
    (none : Option (Option Int)) ≠ some (some (currentUTCMidnight sampleEnv)) :=
  ⟨rfl, by simp⟩

/-- C3 amended: the normalizer is total by construction; the empty string
yields null, and non-empty unparseable garbage (no ISO day pattern, native
parse invalid, no month-day pattern) yields UTC midnight of the current
date. -/
theorem C3_parseUTC_total_garbage (env : JSEnv) (s : String)
    (h0 : s ≠ "") (h1 : isoDateComponents s = none)
    (h2 : env.nativeParse s = none) (h3 : matchMonthDay s = none) :
    parseUTC env "" = none ∧
    parseUTC env s = some (some (currentUTCMidnight env)) := by
  constructor
  · simp [parseUTC]
  · unfold parseUTC parseUTCFallback
    simp [h0, h1, h2, h3]

/-- C3 witness: the amended behavior at the garbage string "garbage" in the
sample environment. -/
theorem C3_parseUTC_total_garbage_witness :
    parseUTC sampleEnv "" = none ∧
    parseUTC sampleEnv "garbage" = some (some (currentUTCMidnight sampleEnv)) :=
  C3_parseUTC_total_garbage sampleEnv "garbage" (by decide) (by decide) rfl (by decide)

/-- C4: a string matching the exact YYYY-MM-DD pattern, with in-range
month and day, is interpreted as UTC midnight of that calendar date in
every host environment — hence independently of the caller's local
timezone, native parser and clock. -/
theorem C4_parseUTC_iso (env : JSEnv) (s : String) (y m d : Int)
    (hiso : isoDateComponents s = some (y, m, d))
    (hm1 : 1 ≤ m) (hm2 : m ≤ 12) (hd1 : 1 ≤ d) (hd2 : d ≤ daysInMonth y m) :
    parseUTC env s = some (some (dayMs * daysFromCivil y m d)) := by
  have hne : s ≠ "" := by
    intro h
    rw [h] at hiso
    simp [isoDateComponents] at hiso
  unfold parseUTC
  simp [hne, hiso, hm1, hm2, hd1, hd2]

/-- C4 witness: normalize("2024-03-05") is UTC midnight 2024-03-05
(epoch ms 1709596800000) in the sample environment. -/
theorem C4_parseUTC_iso_witness :
    parseUTC sampleEnv "2024-03-05" = some (some 1709596800000) := by
  have h := C4_parseUTC_iso sampleEnv "2024-03-05" 2024 3 5 (by decide) (by decide)
    (by decide) (by decide) (by decide)
  exact h.trans (by decide)

/-! Claims about the topic averages. -/

/-- C9 counterexample: avgPct applied to a 100 together with a null yields
50, not the 100 required were null excluded from the mean — Number(null)
is 0, so a null percentage is included as zero. -/
theorem C9_counterexample :
    avgPct [JSNumField.num 100, JSNumField.null] = 50 ∧
    avgPct [JSNumField.num 100, JSNumField.null] ≠ 100 := by
  constructor <;> norm_num [avgPct, List.filterMap_cons, jsNumber]

/-- C9 amended: the average is 0 on no data; undefined entries are excluded
from the mean (dropping one leaves the average unchanged); null entries are
coerced to 0 and included (a null contributes exactly like a literal 0);
and on plain numeric entries the average is their sum over their count. -/
theorem C9_avgPct_amended :
    avgPct [] = 0 ∧
    (∀ arr, avgPct (JSNumField.undef :: arr) = avgPct arr) ∧
    (∀ arr, avgPct (JSNumField.null :: arr) = avgPct (JSNumField.num 0 :: arr)) ∧
    (∀ l : List ℚ, l ≠ [] → avgPct (l.map JSNumField.num) = l.sum / l.length) := by
  have h : ∀ l : List ℚ, (l.map JSNumField.num).filterMap jsNumber = l := by
    intro l
    induction l with
    | nil => rfl
    | cons a t ih => simp only [List.map_cons, List.filterMap_cons, jsNumber, ih]
  refine ⟨rfl, fun arr => ?_, fun arr => ?_, fun l hl => ?_⟩
  · simp [avgPct, List.filterMap_cons, jsNumber]
  · simp [avgPct, List.filterMap_cons, jsNumber]
  · have hlen : l.length ≠ 0 := by simpa using hl
    simp [avgPct, h, hlen]

/-- C9 witness: the amended numeric-mean clause at the singleton 100. -/
theorem C9_avgPct_amended_witness :
    [(100 : ℚ)] ≠ [] ∧ avgPct ([(100 : ℚ)].map JSNumField.num) = 100 := by
  refine ⟨by simp, ?_⟩
  have h := C9_avgPct_amended.2.2.2 [(100 : ℚ)] (by simp)
  simpa using h

/-! Claims about the API route. -/

/-- C10 counterexample: the present-but-empty db override passes validation
and the request succeeds — no BAD_QUERY failure occurs — so the override is
not validated as non-empty text. -/
theorem C10_counterexample :
    routeGET (some "") (fun _ => Except.ok []) = RouteResult.success [] 200 ∧
    querySchemaSafeParse (some "") = some (some "") :=
  ⟨rfl, rfl⟩

/-- C10 amended: validation accepts every present override string, the
empty string included, so a BAD_QUERY response is unreachable for
string-or-absent query values; an ingestion failure yields the failure
shape with code SERVER_ERROR and HTTP status 500, and success yields the
records with HTTP status 200. -/
theorem C10_route_shapes (db : Option String) (data : List ProgressRecord) (e : String) :
    querySchemaSafeParse db = some db ∧
    routeGET db (fun _ => Except.ok data) = RouteResult.success data 200 ∧
    routeGET db (fun _ => Except.error e) =
      RouteResult.failure ⟨"SERVER_ERROR", "Failed to fetch Notion data"⟩ 500 :=
  ⟨rfl, rfl, rfl⟩

/-! Claims about the cumulative burn-up. -/

/-- Every entry of a running-sum tail is bounded below by its starting
sums. -/
theorem cumFrom_ge {l : List (Option Int × Nat × Nat)} :
    ∀ (t0 d0 : Nat) (x : Option Int × Nat × Nat), x ∈ cumFrom t0 d0 l →
      t0 ≤ x.2.1 ∧ d0 ≤ x.2.2 := by
  induction l with
  | nil => intro t0 d0 x hx; simp [cumFrom] at hx
  | cons y rest ih =>
    intro t0 d0 x hx
    obtain ⟨k, a, dn⟩ := y
    simp only [cumFrom, List.mem_cons] at hx
    rcases hx with h | h
    · subst h
      exact ⟨Nat.le_add_right t0 a, Nat.le_add_right d0 dn⟩
    · have h2 := ih (t0 + a) (d0 + dn) x h
      exact ⟨le_trans (Nat.le_add_right t0 a) h2.1,
        le_trans (Nat.le_add_right d0 dn) h2.2⟩

/-- Consecutive entries of a running-sum series are non-decreasing in both
sums. -/
theorem cumFrom_adjacent {l : List (Option Int × Nat × Nat)} :
    ∀ (t0 d0 i : Nat) (a b : Option Int × Nat × Nat),
      (cumFrom t0 d0 l).get? i = some a → (cumFrom t0 d0 l).get? (i + 1) = some b →
      a.2.1 ≤ b.2.1 ∧ a.2.2 ≤ b.2.2 := by
  induction l with
  | nil => intro t0 d0 i a b ha _; simp [cumFrom] at ha
  | cons y rest ih =>
    intro t0 d0 i a b ha hb
    obtain ⟨k, ad, dn⟩ := y
    cases i with
    | zero =>
      simp only [cumFrom, List.get?_cons_zero, List.get?_cons_succ,
        Option.some.injEq] at ha hb
      have hmem : b ∈ cumFrom (t0 + ad) (d0 + dn) rest := List.get?_mem hb
      have h2 := cumFrom_ge (t0 + ad) (d0 + dn) b hmem
      rw [← ha]
      exact ⟨h2.1, h2.2⟩
    | succ j =>
      simp only [cumFrom, List.get?_cons_succ] at ha hb
      exact ih (t0 + ad) (d0 + dn) j a b ha hb

/-- C7: in the cumulative burn-up series produced over any record sequence
and any host environment, the running total and the running done count are
monotonically non-decreasing between consecutive indices. -/
theorem C7_cumulative_monotone (env : JSEnv) (items : List Item) (i : Nat)
    (a b : Option Int × Nat × Nat)
    (ha : (cumulativeSeries env items).get? i = some a)
    (hb : (cumulativeSeries env items).get? (i + 1) = some b) :
    a.2.1 ≤ b.2.1 ∧ a.2.2 ≤ b.2.2 :=
  cumFrom_adjacent 0 0 i a b ha hb

/-- C7 witness: the first two points of the burn-up over the sample rows. -/
theorem C7_cumulative_monotone_witness :
    (cumulativeSeries sampleEnv streakItems).get? 0 = some (some 1709251200000, 1, 0) ∧
    (cumulativeSeries sampleEnv streakItems).get? 1 = some (some 1709337600000, 2, 1) ∧
    (some 1709251200000, 1, 0).2.1 ≤ (some 1709337600000, 2, 1).2.1 ∧
    (some 1709251200000, 1, 0).2.2 ≤ (some 1709337600000, 2, 1).2.2 := by
  refine ⟨by decide, by decide, ?_⟩
  exact C7_cumulative_monotone sampleEnv streakItems 0
    (some 1709251200000, 1, 0) (some 1709337600000, 2, 1) (by decide) (by decide)

/-! Claim about dateless records in KPIs versus buckets. -/

/-- C8: a record lacking a date still counts in the KPI totals — adding it
to the sequence increments total by one, and increments done exactly when
it satisfies the done predicate — while the weekly and daily bucketed
series (and hence the cumulative series) are unchanged by it. -/
theorem C8_dateless_in_kpis_not_buckets (env : JSEnv) (items : List Item) (r : Item)
    (h : hasDate r = false) :
    kpisTotal (r :: items) = kpisTotal items + 1 ∧
    kpisDone (r :: items) = kpisDone items + (if isDoneDay r then 1 else 0) ∧
    weeklySeries env (r :: items) = weeklySeries env items ∧
    dailySeries env (r :: items) = dailySeries env items ∧
    cumulativeSeries env (r :: items) = cumulativeSeries env items := by
  have hw : weeklySeries env (r :: items) = weeklySeries env items := by
    simp [weeklySeries, List.filter_cons, h]
  have hd : dailySeries env (r :: items) = dailySeries env items := by
    simp [dailySeries, List.filter_cons, h]
  refine ⟨rfl, ?_, hw, hd, ?_⟩
  · cases h2 : isDoneDay r <;> simp [kpisDone, List.filter_cons, h2]
  · simp [cumulativeSeries, hd]

/-- C8 witness: the spec's ten-record example — one dateless not-started
row, two fully completed rows, three in-progress rows, four not-started
rows — has total 10, done 2, completion 20, and the dateless row does not
change the weekly bucketing. -/
theorem C8_dateless_in_kpis_not_buckets_witness :
    hasDate (openItem none "Not started") = false ∧
    kpisTotal kpiItems = 10 ∧
    kpisDone kpiItems = 2 ∧
    kpisCompletion kpiItems = 20 ∧
    weeklySeries sampleEnv kpiItems = weeklySeries sampleEnv kpiItems.tail := by
  have ht : kpisTotal kpiItems = 10 := by decide
  have hdn : kpisDone kpiItems = 2 := by decide
  refine ⟨by decide, ht, hdn, ?_, ?_⟩
  · have hlen : kpiItems.length = 10 := ht
    rw [kpisCompletion, if_neg (by rw [hlen]; decide), hdn, ht, jsRound]
    norm_num
  · exact (C8_dateless_in_kpis_not_buckets sampleEnv kpiItems.tail
      (openItem none "Not started") (by decide)).2.2.1

/-! Claim about the weekly-velocity moving average. -/

/-- A successful index lookup splits the drop at that index. -/
theorem drop_cons_of_get {α : Type} :
    ∀ (w : List α) (i : Nat) (a : α), w.get? i = some a →
      w.drop i = a :: w.drop (i + 1) := by
  intro w
  induction w with
  | nil => intro i a h; simp at h
  | cons x t ih =>
    intro i a h
    cases i with
    | zero => simp_all
    | succ j =>
      simp only [List.get?_cons_succ] at h
      simpa using ih j a h

/-- The moving-average entry at an index whose lookup succeeds: the key is
kept and the value is the mean of the slice from max(0, i-2) to i. -/
theorem movingAvg3_get {w : List (Option Int × Nat)} {n : Nat} {p : Option Int × Nat}
    (h : w.get? n = some p) :
    (movingAvg3 w).get? n =
      some (p.1, d3mean (((w.drop (n - 2)).take (n + 1 - (n - 2))).map
        (fun x => (x.2 : ℚ)))) := by
  rw [movingAvg3, List.get?_map, List.enum_get?, h]
  rfl

/-- The mean of a singleton is its element. -/
theorem d3mean_singleton (x : ℚ) : d3mean [x] = x := by
  simp [d3mean]

/-- The mean of a pair. -/
theorem d3mean_pair (x y : ℚ) : d3mean [x, y] = (x + y) / 2 := by
  simp [d3mean]

/-- The mean of a triple. -/
theorem d3mean_triple (x y z : ℚ) : d3mean [x, y, z] = (x + y + z) / 3 := by
  simp [d3mean]
  ring_nf

/-- C6: the weekly moving-average series has one entry per weekly data
point; at the first data point it equals that point's own count, at the
second the mean of the first two counts, and at every later index the mean
of the current count and the counts of the two preceding data points
present in the series (data points, not calendar weeks). -/
theorem C6_movingAvg_window (env : JSEnv) (items : List Item) :
    (movingAvg3 (weeklySeries env items)).length = (weeklySeries env items).length ∧
    (∀ p, (weeklySeries env items).get? 0 = some p →
      (movingAvg3 (weeklySeries env items)).get? 0 = some (p.1, (p.2 : ℚ))) ∧
    (∀ p q, (weeklySeries env items).get? 0 = some p →
      (weeklySeries env items).get? 1 = some q →
      (movingAvg3 (weeklySeries env items)).get? 1 =
        some (q.1, ((p.2 : ℚ) + (q.2 : ℚ)) / 2)) ∧
    (∀ i a b c, (weeklySeries env items).get? i = some a →
      (weeklySeries env items).get? (i + 1) = some b →
      (weeklySeries env items).get? (i + 2) = some c →
      (movingAvg3 (weeklySeries env items)).get? (i + 2) =
        some (c.1, ((a.2 : ℚ) + (b.2 : ℚ) + (c.2 : ℚ)) / 3)) := by
  refine ⟨by simp [movingAvg3], ?_, ?_, ?_⟩
  · intro p hp
    rw [movingAvg3_get hp]
    have h0 : weeklySeries env items = p :: (weeklySeries env items).drop 1 := by
      simpa using drop_cons_of_get (weeklySeries env items) 0 p hp
    rw [show (0 : Nat) - 2 = 0 from rfl, show (0 : Nat) + 1 - (0 - 2) = 1 from rfl,
      List.drop_zero, h0]
    simp [d3mean_singleton]
  · intro p q hp hq
    rw [movingAvg3_get hq]
    have h0 := drop_cons_of_get (weeklySeries env items) 0 p hp
    have h1 := drop_cons_of_get (weeklySeries env items) 1 q hq
    rw [show (1 : Nat) - 2 = 0 from rfl, show (1 : Nat) + 1 - (1 - 2) = 2 from rfl,
      List.drop_zero]
    rw [List.drop_zero] at h0
    rw [h0, h1]
    simp [d3mean_pair]
  · intro i a b c ha hb hc
    rw [movingAvg3_get hc]
    have hstart : i + 2 - 2 = i := by omega
    have hlen : i + 2 + 1 - i = 3 := by omega
    rw [hstart, hlen]
    rw [drop_cons_of_get (weeklySeries env items) i a ha,
      drop_cons_of_get (weeklySeries env items) (i + 1) b hb,
      drop_cons_of_get (weeklySeries env items) (i + 2) c hc]
    simp [d3mean_triple]

/-- C6 witness: over done rows in the ISO weeks of 2024-03-04, 2024-03-11
and 2024-03-18 with weekly counts 1, 2, 1, the moving average is 1 at the
first point and 4/3 at the third. -/
theorem C6_movingAvg_window_witness :
    (weeklySeries sampleEnv velocityItems).get? 0 = some (some 1709510400000, 1) ∧
    (weeklySeries sampleEnv velocityItems).get? 1 = some (some 1710115200000, 2) ∧
    (weeklySeries sampleEnv velocityItems).get? 2 = some (some 1710720000000, 1) ∧
    (movingAvg3 (weeklySeries sampleEnv velocityItems)).get? 0 =
      some (some 1709510400000, 1) ∧
    (movingAvg3 (weeklySeries sampleEnv velocityItems)).get? 2 =
      some (some 1710720000000, 4 / 3) := by
  have h0 : (weeklySeries sampleEnv velocityItems).get? 0 =
      some (some 1709510400000, 1) := by decide
  have h1 : (weeklySeries sampleEnv velocityItems).get? 1 =
      some (some 1710115200000, 2) := by decide
  have h2 : (weeklySeries sampleEnv velocityItems).get? 2 =
      some (some 1710720000000, 1) := by decide
  refine ⟨h0, h1, h2, ?_, ?_⟩
  · have h := (C6_movingAvg_window sampleEnv velocityItems).2.1 _ h0
    simpa using h
  · have h := (C6_movingAvg_window sampleEnv velocityItems).2.2.2 0 _ _ _ h0 h1 h2
    rw [h]
    norm_num

/-! Claim about the streak. -/

/-- The key order is reflexive. -/
theorem keyLE_refl (a : Option Int) : keyLE a a = true := by
  cases a <;> simp [keyLE]

/-- The key order is transitive. -/
theorem keyLE_trans {a b c : Option Int} (h1 : keyLE a b = true)
    (h2 : keyLE b c = true) : keyLE a c = true := by
  cases a <;> cases b <;> cases c <;> simp_all [keyLE] <;> omega

/-- The key order is total. -/
theorem keyLE_total (a b : Option Int) : keyLE a b = true ∨ keyLE b a = true := by
  cases a <;> cases b <;> simp [keyLE] <;> omega

/-- Inserting permutes with consing. -/
theorem insertByLE_perm {κ : Type} (le : κ → κ → Bool) (x : κ) (l : List κ) :
    (insertByLE le x l).Perm (x :: l) := by
  induction l with
  | nil => exact List.Perm.refl [x]
  | cons y rest ih =>
    by_cases h : le x y
    · rw [insertByLE, if_pos h]
    · rw [insertByLE, if_neg h]
      exact (List.Perm.cons y ih).trans (List.Perm.swap x y rest)

/-- The sort is a permutation of its input. -/
theorem sortByLE_perm {κ : Type} (le : κ → κ → Bool) (l : List κ) :
    (sortByLE le l).Perm l := by
  induction l with
  | nil => exact List.Perm.refl []
  | cons x rest ih =>
    exact (insertByLE_perm le x (sortByLE le rest)).trans (List.Perm.cons x ih)

/-- Insertion preserves ascending order under the key order. -/
theorem insertByLE_pairwise (x : Option Int) (l : List (Option Int))
    (h : l.Pairwise (fun a b => keyLE a b = true)) :
    (insertByLE keyLE x l).Pairwise (fun a b => keyLE a b = true) := by
  induction l with
  | nil => simp [insertByLE]
  | cons y rest ih =>
    rcases List.pairwise_cons.mp h with ⟨hy, hrest⟩
    by_cases hxy : keyLE x y
    · rw [insertByLE, if_pos hxy]
      refine List.pairwise_cons.mpr ⟨?_, h⟩
      intro z hz
      rcases List.mem_cons.mp hz with rfl | hz2
      · exact hxy
      · exact keyLE_trans hxy (hy z hz2)
    · rw [insertByLE, if_neg hxy]
      have hyx : keyLE y x = true :=
        (keyLE_total x y).resolve_left (by simpa using hxy)
      refine List.pairwise_cons.mpr ⟨?_, ih hrest⟩
      intro z hz
      rcases List.mem_cons.mp ((insertByLE_perm keyLE x rest).mem_iff.mp hz)
        with rfl | hz2
      · exact hyx
      · exact hy z hz2

/-- The sorted key list is ascending under the key order. -/
theorem sortByLE_pairwise (l : List (Option Int)) :
    (sortByLE keyLE l).Pairwise (fun a b => keyLE a b = true) := by
  induction l with
  | nil => simp [sortByLE]
  | cons x rest ih => exact insertByLE_pairwise x (sortByLE keyLE rest) ih

/-- Every element of an ascending list is bounded by its last element. -/
theorem pairwise_le_getLast :
    ∀ (l : List (Option Int)) (m : Option Int),
      l.Pairwise (fun a b => keyLE a b = true) → l.getLast? = some m →
      ∀ x ∈ l, keyLE x m = true := by
  intro l
  induction l with
  | nil => intro m _ h; simp at h
  | cons a rest ih =>
    intro m hp hl x hx
    rcases List.pairwise_cons.mp hp with ⟨ha, hrest⟩
    cases rest with
    | nil =>
      simp only [List.getLast?_singleton, Option.some.injEq] at hl
      subst hl
      rcases List.mem_singleton.mp hx with rfl
      exact keyLE_refl x
    | cons b t =>
      have hl2 : (b :: t).getLast? = some m := by
        rw [List.getLast?_cons_cons] at hl
        exact hl
      rcases List.mem_cons.mp hx with rfl | hx2
      · have hm : m ∈ b :: t := List.mem_of_mem_getLast? hl2
        exact ha m hm
      · exact ih m hrest hl2 x hx2

/-- Membership in the deduplicated tail: present in the input and not yet
seen. -/
theorem mem_dedupKeysAux {κ : Type} [DecidableEq κ] :
    ∀ (l seen : List κ) (x : κ),
      x ∈ dedupKeysAux seen l ↔ x ∈ l ∧ x ∉ seen := by
  intro l
  induction l with
  | nil => intro seen x; simp [dedupKeysAux]
  | cons k rest ih =>
    intro seen x
    by_cases hk : k ∈ seen
    · rw [dedupKeysAux, if_pos hk, ih seen x]
      constructor
      · rintro ⟨hr, hs⟩; exact ⟨List.mem_cons_of_mem k hr, hs⟩
      · rintro ⟨hor, hs⟩
        rcases List.mem_cons.mp hor with rfl | hr
        · exact absurd hk hs
        · exact ⟨hr, hs⟩
    · rw [dedupKeysAux, if_neg hk]
      constructor
      · intro hx
        rcases List.mem_cons.mp hx with rfl | hx2
        · exact ⟨List.mem_cons_self x rest, hk⟩
        · have h2 := (ih (k :: seen) x).mp hx2
          exact ⟨List.mem_cons_of_mem k h2.1,
            fun hs => h2.2 (List.mem_cons_of_mem k hs)⟩
      · rintro ⟨hx, hs⟩
        rcases List.mem_cons.mp hx with rfl | hx2
        · exact List.mem_cons_self x _
        · by_cases hxk : x = k
          · subst hxk; exact List.mem_cons_self x _
          · refine List.mem_cons_of_mem k ((ih (k :: seen) x).mpr ⟨hx2, ?_⟩)
            intro hmem
            rcases List.mem_cons.mp hmem with h | h
            · exact hxk h
            · exact hs h

/-- Deduplication produces a duplicate-free list. -/
theorem dedupKeysAux_nodup {κ : Type} [DecidableEq κ] :
    ∀ (l seen : List κ), (dedupKeysAux seen l).Nodup := by
  intro l
  induction l with
  | nil => intro seen; simp [dedupKeysAux]
  | cons k rest ih =>
    intro seen
    by_cases hk : k ∈ seen
    · rw [dedupKeysAux, if_pos hk]; exact ih seen
    · rw [dedupKeysAux, if_neg hk]
      refine List.nodup_cons.mpr ⟨?_, ih (k :: seen)⟩
      intro hmem
      exact ((mem_dedupKeysAux rest (k :: seen) k).mp hmem).2
        (List.mem_cons_self k seen)

/-- The loop counts at most its fuel. -/
theorem countBack_le_fuel (ks : List (Option Int)) :
    ∀ (fuel : Nat) (c : Option Int), countBack ks c fuel ≤ fuel := by
  intro fuel
  induction fuel with
  | zero => intro c; simp [countBack]
  | succ n ih =>
    intro c
    rw [countBack]
    by_cases h : c ∈ ks
    · rw [if_pos h]
      have h2 := ih (c.map (fun t => t - dayMs))
      omega
    · rw [if_neg h]
      omega

/-- Every day stepped over by the loop is present in the key set. -/
theorem countBack_mem (ks : List (Option Int)) :
    ∀ (fuel : Nat) (M : Int) (i : Nat), i < countBack ks (some M) fuel →
      some (M - (i : Int) * dayMs) ∈ ks := by
  intro fuel
  induction fuel with
  | zero => intro M i h; simp [countBack] at h
  | succ n ih =>
    intro M i h
    rw [countBack] at h
    by_cases hm : (some M : Option Int) ∈ ks
    · rw [if_pos hm] at h
      cases i with
      | zero => simpa using hm
      | succ j =>
        simp only [Option.map_some'] at h
        have hj : j < countBack ks (some (M - dayMs)) n := by omega
        have h2 := ih (M - dayMs) j hj
        have heq : M - dayMs - (j : Int) * dayMs = M - ((j + 1 : Nat) : Int) * dayMs := by
          push_cast
          ring
        rw [heq] at h2
        exact h2
    · rw [if_neg hm] at h
      omega

/-- When the loop stops strictly before exhausting its fuel, the day after
the counted run is absent — the count stops at the first gap. -/
theorem countBack_gap (ks : List (Option Int)) :
    ∀ (fuel : Nat) (M : Int), countBack ks (some M) fuel < fuel →
      some (M - (countBack ks (some M) fuel : Int) * dayMs) ∉ ks := by
  intro fuel
  induction fuel with
  | zero => intro M h; omega
  | succ n ih =>
    intro M h
    by_cases hm : (some M : Option Int) ∈ ks
    · rw [countBack, if_pos hm, Option.map_some'] at h ⊢
      have hlt : countBack ks (some (M - dayMs)) n < n := by omega
      have h2 := ih (M - dayMs) hlt
      have heq : M - ((1 + countBack ks (some (M - dayMs)) n : Nat) : Int) * dayMs =
          M - dayMs - (countBack ks (some (M - dayMs)) n : Int) * dayMs := by
        push_cast
        ring
      rw [heq]
      exact h2
    · rw [countBack, if_neg hm] at h ⊢
      simpa using hm

/-- When the loop exhausts its fuel on a duplicate-free key list, the
counted run has consumed every key, so the next day back is absent too. -/
theorem countBack_gap_full (ks : List (Option Int)) (M : Int)
    (hnd : ks.Nodup) (hn : countBack ks (some M) ks.length = ks.length) :
    some (M - (ks.length : Int) * dayMs) ∉ ks := by
  intro hmem
  have hsub : ∀ i : Nat, i < ks.length + 1 → some (M - (i : Int) * dayMs) ∈ ks := by
    intro i hi
    rcases Nat.lt_or_ge i ks.length with h | h
    · exact countBack_mem ks ks.length M i (by omega)
    · have hieq : i = ks.length := by omega
      subst hieq
      exact hmem
  have hdne : (dayMs : Int) ≠ 0 := by norm_num [dayMs]
  have hinj : Set.InjOn (fun i : Nat => (some (M - (i : Int) * dayMs) : Option Int))
      (Finset.range (ks.length + 1)) := by
    intro i _ j _ hij
    simp only [Option.some.injEq] at hij
    have h1 : (i : Int) * dayMs = (j : Int) * dayMs := by omega
    have h2 : (i : Int) = (j : Int) := mul_right_cancel₀ hdne h1
    exact_mod_cast h2
  have hcard : ((Finset.range (ks.length + 1)).image
      (fun i : Nat => (some (M - (i : Int) * dayMs) : Option Int))).card =
      ks.length + 1 := by
    rw [Finset.card_image_of_injOn hinj, Finset.card_range]
  have hsubset : (Finset.range (ks.length + 1)).image
      (fun i : Nat => (some (M - (i : Int) * dayMs) : Option Int)) ⊆ ks.toFinset := by
    intro x hx
    simp only [Finset.mem_image, Finset.mem_range] at hx
    obtain ⟨i, hi, rfl⟩ := hx
    exact List.mem_toFinset.mpr (hsub i hi)
  have hle := Finset.card_le_card hsubset
  rw [hcard, List.toFinset_card_of_nodup hnd] at hle
  omega

/-- C5: the streak is computed over the set of distinct UTC day keys of the
dated done rows.  It is 0 when that set is empty.  Otherwise, when the
latest key is a number M (an upper bound of every key in the set), the
streak n is at least 1, the keys M, M minus one day, through M minus n-1
days are all present, and M minus n days is absent — counting backward one
UTC day at a time from the latest done day and stopping at the first gap.
Duplicate records on one day contribute a single key.  (When the latest
key is the NaN of an invalid date the host loop would not terminate; no
such run is claimed.) -/
theorem C5_streak (env : JSEnv) (items : List Item) :
    (doneDayKeys env items = [] → streakOf env items = 0) ∧
    (∀ M : Int, (doneDayKeys env items).getLast? = some (some M) →
      (∀ k : Int, some k ∈ doneDayKeys env items → k ≤ M) ∧
      1 ≤ streakOf env items ∧
      (∀ i : Nat, i < streakOf env items →
        some (M - (i : Int) * dayMs) ∈ doneDayKeys env items) ∧
      some (M - (streakOf env items : Int) * dayMs) ∉ doneDayKeys env items) := by
  constructor
  · intro h
    simp [streakOf, h]
  · intro M h
    have hstreak : streakOf env items =
        countBack (doneDayKeys env items) (some M) (doneDayKeys env items).length := by
      simp only [streakOf]
      rw [h]
    have hPW := sortByLE_pairwise
      (dedupKeys (((items.filter isDoneDay).filter hasDate).map (itemDayKey env)))
    have hND : (doneDayKeys env items).Nodup := by
      rw [doneDayKeys]
      exact (sortByLE_perm keyLE _).nodup_iff.mpr (dedupKeysAux_nodup _ [])
    refine ⟨?_, ?_, ?_, ?_⟩
    · intro k hk
      have h2 := pairwise_le_getLast (doneDayKeys env items) (some M) hPW h (some k) hk
      simpa [keyLE] using h2
    · have hmem : (some M : Option Int) ∈ doneDayKeys env items :=
        List.mem_of_mem_getLast? h
      have hlen : 1 ≤ (doneDayKeys env items).length :=
        List.length_pos.mpr (List.ne_nil_of_mem hmem)
      rw [hstreak]
      obtain ⟨n, hn⟩ : ∃ n, (doneDayKeys env items).length = n + 1 :=
        ⟨(doneDayKeys env items).length - 1, by omega⟩
      rw [hn, countBack, if_pos hmem]
      omega
    · intro i hi
      rw [hstreak] at hi
      exact countBack_mem (doneDayKeys env items) (doneDayKeys env items).length M i hi
    · rw [hstreak]
      rcases Nat.lt_or_ge
          (countBack (doneDayKeys env items) (some M) (doneDayKeys env items).length)
          (doneDayKeys env items).length with hlt | hge
      · exact countBack_gap (doneDayKeys env items) (doneDayKeys env items).length M hlt
      · have heq : countBack (doneDayKeys env items) (some M)
            (doneDayKeys env items).length = (doneDayKeys env items).length :=
          le_antisymm (countBack_le_fuel (doneDayKeys env items) _ _) hge
        rw [heq]
        exact countBack_gap_full (doneDayKeys env items) M hND heq

/-- C5 witness: rows with done day keys D, D-1 and D-3 (D = 2024-03-05,
with a duplicate on D and a dateless done row) give streak 2; D-1 is in
the key set and D-2 is the first gap. -/
theorem C5_streak_witness :
    streakOf sampleEnv streakItems = 2 ∧
    (doneDayKeys sampleEnv streakItems).getLast? = some (some 1709596800000) ∧
    some (1709596800000 - (2 : Int) * dayMs) ∉ doneDayKeys sampleEnv streakItems ∧
    some (1709596800000 - (1 : Int) * dayMs) ∈ doneDayKeys sampleEnv streakItems := by
  have hs : streakOf sampleEnv streakItems = 2 := by decide
  have hl : (doneDayKeys sampleEnv streakItems).getLast? = some (some 1709596800000) := by
    decide
  have h := (C5_streak sampleEnv streakItems).2 1709596800000 hl
  refine ⟨hs, hl, ?_, ?_⟩
  · have hg := h.2.2.2
    rw [hs] at hg
    have hcast : ((2 : Nat) : Int) = (2 : Int) := by norm_num
    rw [hcast] at hg
    exact hg
  · have hm := h.2.2.1 1 (by rw [hs]; omega)
    have hcast : ((1 : Nat) : Int) = (1 : Int) := by norm_num
    rw [hcast] at hm
    exact hm

end Dashbord
